import Mathlib

/-!
Shallow embedding of the MathParser repository (src/Parser.hpp, src/Source.cpp).

The C++ `Parser` class keeps a cursor (`m_Input`) over a lower-cased copy of the
input, a failure state (`m_State`), an angle-mode flag (`m_Radians`), and a
symbol registry (`TOKENS`, `CONSTANTS`, `FUNCTIONS`, `OPERATORS`).  We model the
cursor as a natural-number index into an immutable character list, the registry
as association lists, and the two mutually recursive parsing procedures
(`ParseSimpleExpression`, `ParseBinaryExpression`) as one fuel-indexed function
`parseGo`: a `none` result means the given fuel did not suffice (the C code
would still be running, or would recurse forever if no fuel suffices).

The numeric domain `long double` is idealised as `ℝ`; `pow` is `Real.rpow`,
`tgamma` is `Real.Gamma`, and the `(long int)` casts inside `%` are modelled by
truncation toward zero (`Int.tmod` is C's truncated `%`).  `std::stold` on the
digit-and-dot tokens the evaluator accepts is modelled by `stold` below, which
reads the leading `digits[.digits]` prefix exactly as `stold` does.

Because the source rewinds the cursor with raw pointer arithmetic
(`m_Input -= op.size()`), which can move the pointer before the start of the
buffer, the state carries an `underflow` flag: it is set exactly when a rewind
amount exceeds the current cursor position (out-of-bounds pointer in C).
-/

namespace MathParser

/-- `Parser::State` from the source. -/
inductive PState where
  | Ok
  | InvalidSyntax
  | UnknownBinaryOperator
  | UnknownUnaryOperator
  | UnknownExpressionType
  deriving DecidableEq, Repr

/-- The C++ `Expression` struct holds a token and a vector of 0, 1 or 2
subexpressions, built only through its three constructors
`Expression(token)`, `Expression(token, rhs)`, `Expression(token, lhs, rhs)`;
we mirror those constructors.  `leaf []` is the default-constructed `{}`. -/
inductive Expression where
  | leaf (token : List Char)
  | unary (token : List Char) (arg : Expression)
  | binary (token : List Char) (lhs rhs : Expression)
  deriving DecidableEq, Repr

/-- Mutable parsing state: cursor position, failure state, and the
instrumentation flag recording that some rewind moved the cursor before the
start of the input buffer (undefined pointer arithmetic in the source). -/
structure St where
  pos : Nat
  state : PState
  underflow : Bool
  deriving DecidableEq, Repr

/-- The tokenizer-facing part of the registry: `TOKENS` (matching order) and
`CONSTANTS` (symbol to numeric-text substitution). -/
structure Lex where
  tokens : List (List Char)
  constants : List (List Char × List Char)

/-- NUL terminator: reading the input list out of range models `*m_Input`
hitting the terminating `'\0'` of the `c_str` buffer. -/
def nul : Char := Char.ofNat 0

/-- C `isspace` for the default locale. -/
def cIsSpace (c : Char) : Bool := c == ' ' || (9 ≤ c.toNat && c.toNat ≤ 13)

/-- Characters allowed inside a numeric token: C `isdigit(c) || c == '.'`. -/
def isDigitDot (c : Char) : Bool := c.isDigit || c == '.'

/-- Association-list lookup, modelling `std::unordered_map` queries. -/
def assoc {α β : Type _} [DecidableEq α] : List (α × β) → α → Option β
  | [], _ => none
  | p :: rest, k => if k = p.1 then some p.2 else assoc rest k

/-- `std::unordered_map::insert`: a no-op when the key is already present. -/
def mapInsert {α β : Type _} [DecidableEq α] (m : List (α × β)) (k : α) (v : β) :
    List (α × β) :=
  if (assoc m k).isSome then m else m ++ [(k, v)]

/-- Advance `p` over whitespace, walking the suffix `l.drop p` structurally:
the `while (std::isspace(*m_Input)) m_Input++;` loop in `ParseToken`. -/
def skipWsAux : List Char → Nat → Nat
  | c :: rest, p => if cIsSpace c then skipWsAux rest (p + 1) else p
  | [], p => p

/-- Position of the first non-whitespace character at or after `p`. -/
def skipWs (l : List Char) (p : Nat) : Nat := skipWsAux (l.drop p) p

/-- Scan the reversed `TOKENS` list for the first entry matching the remaining
input: the `for (auto t = TOKENS.crbegin(); ...)` loop with `strncmp`. -/
def findTok : List (List Char) → List Char → Option (List Char)
  | [], _ => none
  | t :: ts, r => if t.isPrefixOf r then some t else findTok ts r

/-- `m_Input -= n`: the cursor moves back `n` places.  If `n` exceeds the
current position the C pointer leaves the buffer; we truncate and record the
event in `underflow`. -/
def rewind (s : St) (n : Nat) : St :=
  { s with pos := s.pos - n, underflow := s.underflow || decide (s.pos < n) }

/-- `Parser::ParseToken`.  Returns the `bool` result (true for numeric tokens,
including constant substitutions), the token text, and the updated state. -/
def ParseToken (lex : Lex) (l : List Char) (s : St) : Bool × List Char × St :=
  let q := skipWs l s.pos
  if l.getD q nul = nul then
    (false, [], { s with pos := q })
  else if (l.getD q nul).isDigit then
    let tok := (l.drop q).takeWhile isDigitDot
    if tok.getLast? = some '.' then
      (true, tok, { s with pos := q + tok.length, state := .InvalidSyntax })
    else
      (true, tok, { s with pos := q + tok.length })
  else
    match findTok lex.tokens.reverse (l.drop q) with
    | some t =>
      match assoc lex.constants t with
      | some v => (true, v, { s with pos := q + t.length })
      | none => (false, t, { s with pos := q + t.length })
    | none => (false, [], { s with pos := q, state := .InvalidSyntax })

/-- `Parser::GetPriority`: the fixed precedence table; unknown symbols get 0. -/
def GetPriority (op : List Char) : Nat :=
  if op = ['+'] then 1
  else if op = ['-'] then 1
  else if op = ['*'] then 2
  else if op = ['/'] then 2
  else if op = ['%'] then 3
  else if op = ['^'] then 3
  else 0

/-- Selector for the fuel-indexed parser: which of the two mutually recursive
procedures is running.  `binaryLoop` carries the accumulated left-hand side of
the `while (1)` loop inside `ParseBinaryExpression`. -/
inductive PReq where
  | simple : PReq
  | binaryTop : Nat → PReq
  | binaryLoop : Nat → Expression → PReq

/-- The two mutually recursive procedures `Parser::ParseSimpleExpression` and
`Parser::ParseBinaryExpression(minPriority)` as one fuel-indexed function.
`none` means the fuel ran out; the source has no such bound and simply keeps
recursing. -/
def parseGo (lex : Lex) (l : List Char) : Nat → PReq → St → Option (Expression × St)
  | 0, _, _ => none
  | f + 1, .simple, s =>
    match ParseToken lex l s with
    | (isNumber, tok, s1) =>
      if s1.state ≠ .Ok then some (.leaf [], s1)
      else if isNumber then some (.leaf tok, s1)
      else if tok = ['('] then
        match parseGo lex l f (.binaryTop 0) s1 with
        | none => none
        | some (res, s2) =>
          match ParseToken lex l s2 with
          | (_, tok2, s3) =>
            if tok2 ≠ [')'] then some (.leaf [], { s3 with state := .InvalidSyntax })
            else some (res, s3)
      else
        match parseGo lex l f .simple s1 with
        | none => none
        | some (arg, s2) => some (.unary tok arg, s2)
  | f + 1, .binaryTop minP, s =>
    match parseGo lex l f .simple s with
    | none => none
    | some (lhs, s1) => parseGo lex l f (.binaryLoop minP lhs) s1
  | f + 1, .binaryLoop minP lhs, s =>
    match ParseToken lex l s with
    | (_, op, s1) =>
      if GetPriority op ≤ minP then some (lhs, rewind s1 op.length)
      else
        match parseGo lex l f (.binaryTop (GetPriority op)) s1 with
        | none => none
        | some (rhs, s2) => parseGo lex l f (.binaryLoop minP (.binary op lhs rhs)) s2

/-- `Parser::ParseSimpleExpression`, fuel-indexed. -/
def ParseSimpleExpression (lex : Lex) (l : List Char) (fuel : Nat) (s : St) :
    Option (Expression × St) :=
  parseGo lex l fuel .simple s

/-- `Parser::ParseBinaryExpression(minPriority)`, fuel-indexed. -/
def ParseBinaryExpression (lex : Lex) (l : List Char) (fuel : Nat) (minPriority : Nat)
    (s : St) : Option (Expression × St) :=
  parseGo lex l fuel (.binaryTop minPriority) s

/-- String-literal helper. -/
def s2l (s : String) : List Char := s.data

/-- The initial `TOKENS` list, in declaration order. -/
def defaultTokens : List (List Char) :=
  [s2l "+", s2l "-", s2l "^", s2l "*", s2l "/", s2l "%", s2l "(", s2l ")", s2l "!",
   s2l "e", s2l "lg", s2l "ln", s2l "pi", s2l "abs", s2l "sin", s2l "cos", s2l "tan",
   s2l "sqrt", s2l "asin", s2l "acos", s2l "atan", s2l "log2"]

/-- The initial `CONSTANTS` map; `std::to_string` renders the double constants
`std::numbers::pi` and `std::numbers::e` with six decimal places. -/
def defaultConstants : List (List Char × List Char) :=
  [(s2l "pi", s2l "3.141593"), (s2l "e", s2l "2.718282")]

/-- The tokenizer-facing part of the default registry. -/
def defaultLex : Lex := ⟨defaultTokens, defaultConstants⟩

/-- The full registry: the tokenizer part plus `FUNCTIONS` (handlers take the
angle-mode flag, since the C++ lambdas capture `m_Radians`) and `OPERATORS`. -/
structure Registry where
  lex : Lex
  functions : List (List Char × (Bool → ℝ → ℝ))
  operators : List (List Char × (ℝ → ℝ → ℝ))

/-- The `(long int)` cast applied to each `%` operand: truncation toward 0. -/
noncomputable def truncLongInt (a : ℝ) : ℤ := if 0 ≤ a then ⌊a⌋ else ⌈a⌉

/-- The initial `FUNCTIONS` map.  `long double` is idealised as `ℝ`; the
degree-mode variants divide or multiply by `π / 180` exactly as the lambdas
capturing `m_Radians` do. -/
noncomputable def defaultFunctions : List (List Char × (Bool → ℝ → ℝ)) :=
  [(s2l "+", fun _ a => a),
   (s2l "-", fun _ a => -a),
   (s2l "abs", fun _ a => |a|),
   (s2l "log2", fun _ a => Real.logb 2 a),
   (s2l "lg", fun _ a => Real.logb 10 a),
   (s2l "ln", fun _ a => Real.log a),
   (s2l "sin", fun r a => if r then Real.sin a else Real.sin (a * Real.pi / 180)),
   (s2l "cos", fun r a => if r then Real.cos a else Real.cos (a * Real.pi / 180)),
   (s2l "tan", fun r a => if r then Real.tan a else Real.tan (a * Real.pi / 180)),
   (s2l "asin", fun r a => if r then Real.arcsin a else Real.arcsin a / Real.pi * 180),
   (s2l "acos", fun r a => if r then Real.arccos a else Real.arccos a / Real.pi * 180),
   (s2l "atan", fun r a => if r then Real.arctan a else Real.arctan a / Real.pi * 180),
   (s2l "sqrt", fun _ a => Real.sqrt a),
   (s2l "!", fun _ a => Real.Gamma (a + 1))]

/-- The initial `OPERATORS` map.  `pow` is `Real.rpow` (the `^` below); the
C `%` on `long int` is truncated remainder, which is `Int.tmod`. -/
noncomputable def defaultOperators : List (List Char × (ℝ → ℝ → ℝ)) :=
  [(s2l "+", fun a b => a + b),
   (s2l "-", fun a b => a - b),
   (s2l "*", fun a b => a * b),
   (s2l "/", fun a b => a / b),
   (s2l "^", fun a b => a ^ b),
   (s2l "%", fun a b => ((truncLongInt a).tmod (truncLongInt b) : ℝ))]

/-- The registry a freshly constructed `Parser` starts with. -/
noncomputable def defaultRegistry : Registry :=
  ⟨defaultLex, defaultFunctions, defaultOperators⟩

/-- Digit run to number, most significant first. -/
def digitsVal (l : List Char) : Nat := l.foldl (fun n c => 10 * n + (c.toNat - 48)) 0

/-- `std::stold` on the tokens the evaluator hands it (digits and points):
parses the longest `digits[.digits]` prefix, so `"1.2.3"` reads as `1.2`.
The exact value is returned as a numerator and a power-of-ten denominator. -/
def stold (l : List Char) : Nat × Nat :=
  let ip := l.takeWhile Char.isDigit
  match l.drop ip.length with
  | '.' :: r =>
    let fp := r.takeWhile Char.isDigit
    (digitsVal ip * 10 ^ fp.length + digitsVal fp, 10 ^ fp.length)
  | _ => (digitsVal ip, 1)

/-- `Parser::Evaluate`: post-order tree walk threading the failure state.
For a 2-argument node the source evaluates both operands and applies the
operator handler (we fix left-then-right order; C++ leaves it unspecified, and
the state is only ever overwritten, never read, during this walk); an absent
operator sets `UnknownBinaryOperator` and the function falls off the switch
with an indeterminate value, which we render as 0.  Likewise for 1-argument
nodes and `FUNCTIONS`.  A 0-argument node must be non-empty and all digits or
points, else the state is overwritten with `UnknownExpressionType`. -/
noncomputable def Evaluate (reg : Registry) (radians : Bool) :
    Expression → PState → ℝ × PState
  | .binary tok a b, st =>
    match assoc reg.operators tok with
    | some f =>
      let ra := Evaluate reg radians a st
      let rb := Evaluate reg radians b ra.2
      (f ra.1 rb.1, rb.2)
    | none => (0, .UnknownBinaryOperator)
  | .unary tok a, st =>
    match assoc reg.functions tok with
    | some f =>
      let ra := Evaluate reg radians a st
      (f radians ra.1, ra.2)
    | none => (0, .UnknownUnaryOperator)
  | .leaf tok, _st =>
    if tok.isEmpty || !(tok.all isDigitDot) then (0, .UnknownExpressionType)
    else ((((stold tok).1 : ℝ) / ((stold tok).2 : ℝ)), _st)

/-- The case-folding loop at the top of `Parser::Get`: alphabetic characters
are lower-cased before parsing. -/
def lowerInput (input : String) : List Char :=
  input.data.map (fun c => if c.isAlpha then c.toLower else c)

/-- `Parser::Get`: lower-case the input, reset the state to `Ok`, parse a
binary expression at minimum priority 0, and evaluate the tree.  Returns the
numeric result paired with the failure state the caller observes through
`GetState`; `none` means the parse recursion outran the given fuel. -/
noncomputable def Get (reg : Registry) (fuel : Nat) (input : String) (radians : Bool) :
    Option (ℝ × PState) :=
  match parseGo reg.lex (lowerInput input) fuel (.binaryTop 0) ⟨0, .Ok, false⟩ with
  | none => none
  | some (e, s) => some (Evaluate reg radians e s.state)

/-- The token-insertion loop shared by `AddOperator` and `AddFunction`: walk
the list and insert `text` in front of every entry strictly longer than it. -/
def insertBeforeLonger (tokens : List (List Char)) (text : List Char) :
    List (List Char) :=
  tokens.flatMap (fun t => if text.length < t.length then [text, t] else [t])

/-- `Parser::AddOperator`: insert the handler into `OPERATORS` (a no-op if the
symbol is already bound, per `unordered_map::insert`) and splice the symbol
into `TOKENS` before each longer entry.  The source takes no precedence
argument and never touches `GetPriority`. -/
noncomputable def AddOperator (reg : Registry) (text : List Char)
    (handler : ℝ → ℝ → ℝ) : Registry :=
  { reg with
    operators := mapInsert reg.operators text handler,
    lex := { reg.lex with tokens := insertBeforeLonger reg.lex.tokens text } }

/-- `Parser::AddFunction`: insert into `FUNCTIONS`, push the symbol at the back
of `TOKENS`, then run the same insertion loop over the extended list. -/
noncomputable def AddFunction (reg : Registry) (text : List Char)
    (handler : Bool → ℝ → ℝ) : Registry :=
  { reg with
    functions := mapInsert reg.functions text handler,
    lex := { reg.lex with tokens := insertBeforeLonger (reg.lex.tokens ++ [text]) text } }

/-- Tokens of the 0-argument nodes of a tree, left to right. -/
def leafTokens : Expression → List (List Char)
  | .leaf t => [t]
  | .unary _ a => leafTokens a
  | .binary _ a b => leafTokens a ++ leafTokens b

/-- Leaf tokens already accumulated inside a pending `binaryLoop` request. -/
def reqLeaves : PReq → List (List Char)
  | .binaryLoop _ lhs => leafTokens lhs
  | _ => []

/-- What the parser actually guarantees about a leaf of an `Ok` parse:
non-empty, all digits or points, not ending in a point (several points are
possible). -/
def validNum (t : List Char) : Bool :=
  !t.isEmpty && t.all isDigitDot && !(t.getLast? == some '.')

/-- Modelled from the spec: the claimed leaf invariant, `a syntactically valid
unsigned decimal numeral (digits and at most one decimal point, non-empty)`.
Compared against the code-derived `validNum` by the C7 theorems. -/
def specValidNumeral (t : List Char) : Bool :=
  !t.isEmpty && t.all isDigitDot && decide (t.countP (fun c => c == '.') ≤ 1)

/-- The registry of claim C1's scenario: a fresh binary operator `#` whose
handler returns the constant 42, registered through `AddOperator`. -/
noncomputable def sharpRegistry : Registry :=
  AddOperator defaultRegistry (s2l "#") (fun _ _ => 42)

/-! ## Theorems -/

/-! ### Helper lemmas about the tokenizer -/

/-- Rewinding the cursor does not touch the failure state. -/
theorem rewind_state (s : St) (n : Nat) : (rewind s n).state = s.state := rfl

/-- Reading at a position whose suffix is non-empty yields its head. -/
theorem getD_of_drop_cons {l : List Char} {q : Nat} {c : Char} {rest : List Char}
    (h : l.drop q = c :: rest) : l.getD q nul = c := by
  rw [List.getD_eq_getElem?_getD]
  have h0 : (l.drop q)[0]? = some c := by rw [h]; simp
  rw [List.getElem?_drop] at h0
  simp only [Nat.add_zero] at h0
  rw [h0]
  rfl

/-- Reading at a position past the end of the buffer yields the terminator. -/
theorem getD_of_drop_nil {l : List Char} {q : Nat} (h : l.drop q = []) :
    l.getD q nul = nul := by
  rw [List.getD_eq_getElem?_getD]
  have h0 : (l.drop q)[0]? = (none : Option Char) := by rw [h]; simp
  rw [List.getElem?_drop] at h0
  simp only [Nat.add_zero] at h0
  rw [h0]
  rfl

/-- Whitespace skipping is inert at the terminator. -/
theorem skipWs_of_nul {l : List Char} {q : Nat} (h : l.getD q nul = nul) :
    skipWs l q = q := by
  unfold skipWs
  cases hd : l.drop q with
  | nil => rfl
  | cons c rest =>
    have hc : c = nul := by rw [← getD_of_drop_cons hd, h]
    have hsp : cIsSpace c = false := by rw [hc]; decide
    simp [skipWsAux, hsp]

/-- At end of input `ParseToken` only skips whitespace and reports no token. -/
theorem ParseToken_eoi {lex : Lex} {l : List Char} {s : St}
    (h : l.getD (skipWs l s.pos) nul = nul) :
    ParseToken lex l s = (false, [], { s with pos := skipWs l s.pos }) := by
  unfold ParseToken
  simp only [h, if_pos]

/-- `ParseToken` either keeps the failure state or sets `InvalidSyntax`;
in particular it never clears a failure. -/
theorem ParseToken_state (lex : Lex) (l : List Char) (s : St) :
    ((ParseToken lex l s).2.2).state = s.state ∨
    ((ParseToken lex l s).2.2).state = .InvalidSyntax := by
  unfold ParseToken
  dsimp only
  split
  · exact Or.inl rfl
  · split
    · split
      · exact Or.inr rfl
      · exact Or.inl rfl
    · split
      · split
        · exact Or.inl rfl
        · exact Or.inl rfl
      · exact Or.inr rfl

/-- One-step unfolding of `parseGo` for `ParseSimpleExpression`. -/
theorem parseGo_simple_succ (lex : Lex) (l : List Char) (f : Nat) (s : St) :
    parseGo lex l (f + 1) .simple s =
    match ParseToken lex l s with
    | (isNumber, tok, s1) =>
      if s1.state ≠ .Ok then some (.leaf [], s1)
      else if isNumber then some (.leaf tok, s1)
      else if tok = ['('] then
        match parseGo lex l f (.binaryTop 0) s1 with
        | none => none
        | some (res, s2) =>
          match ParseToken lex l s2 with
          | (_, tok2, s3) =>
            if tok2 ≠ [')'] then some (.leaf [], { s3 with state := .InvalidSyntax })
            else some (res, s3)
      else
        match parseGo lex l f .simple s1 with
        | none => none
        | some (arg, s2) => some (.unary tok arg, s2) := rfl

/-- One-step unfolding of `parseGo` for `ParseBinaryExpression`. -/
theorem parseGo_binaryTop_succ (lex : Lex) (l : List Char) (f : Nat) (mp : Nat) (s : St) :
    parseGo lex l (f + 1) (.binaryTop mp) s =
    match parseGo lex l f .simple s with
    | none => none
    | some (lhs, s1) => parseGo lex l f (.binaryLoop mp lhs) s1 := rfl

/-- One-step unfolding of `parseGo` for the binary loop. -/
theorem parseGo_binaryLoop_succ (lex : Lex) (l : List Char) (f : Nat) (mp : Nat)
    (lhs : Expression) (s : St) :
    parseGo lex l (f + 1) (.binaryLoop mp lhs) s =
    match ParseToken lex l s with
    | (_, op, s1) =>
      if GetPriority op ≤ mp then some (lhs, rewind s1 op.length)
      else
        match parseGo lex l f (.binaryTop (GetPriority op)) s1 with
        | none => none
        | some (rhs, s2) => parseGo lex l f (.binaryLoop mp (.binary op lhs rhs)) s2 := rfl

/-- At end of input, `ParseSimpleExpression` consumes nothing and calls itself
again on unchanged state: no amount of fuel makes it return.  This is the
unbounded recursion of `return Expression(token, ParseSimpleExpression());`
reached with an empty token. -/
theorem parseGo_simple_eoi {lex : Lex} {l : List Char} :
    ∀ (f : Nat) {s : St}, s.state = .Ok → l.getD (skipWs l s.pos) nul = nul →
    parseGo lex l f .simple s = none := by
  intro f
  induction f with
  | zero => intro s _ _; rfl
  | succ f ih =>
    intro s hok hnul
    simp only [parseGo]
    rw [ParseToken_eoi hnul]
    dsimp only
    rw [if_neg (by simp [hok]), if_neg (by simp), if_neg (by simp)]
    rw [ih (by exact hok) ?_]
    · dsimp only
      rw [skipWs_of_nul hnul]
      exact hnul

/-- `ParseBinaryExpression` at end of input diverges through its initial
`ParseSimpleExpression` call. -/
theorem parseGo_binaryTop_eoi {lex : Lex} {l : List Char} :
    ∀ (f : Nat) (mp : Nat) {s : St}, s.state = .Ok →
    l.getD (skipWs l s.pos) nul = nul →
    parseGo lex l f (.binaryTop mp) s = none := by
  intro f mp s hok hnul
  cases f with
  | zero => rfl
  | succ f =>
    simp only [parseGo]
    rw [parseGo_simple_eoi f hok hnul]

/-- On `"1+"` the first simple expression parses the leaf `1`. -/
theorem parseGo_oneplus_simple :
    ∀ g, parseGo defaultLex ['1', '+'] (g+1) .simple ⟨0, .Ok, false⟩ =
      some (.leaf ['1'], ⟨1, .Ok, false⟩) := by
  intro g
  simp only [parseGo]
  rw [show ParseToken defaultLex ['1', '+'] ⟨0, .Ok, false⟩ =
      (true, ['1'], ⟨1, .Ok, false⟩) from rfl]
  dsimp only
  rw [if_neg (by simp), if_pos rfl]

/-- On `"1+"` the binary loop consumes `+` and then diverges looking for the
right-hand side at end of input. -/
theorem parseGo_oneplus_loop :
    ∀ g, parseGo defaultLex ['1', '+'] g
      (.binaryLoop 0 (.leaf ['1'])) ⟨1, .Ok, false⟩ = none := by
  intro g
  cases g with
  | zero => rfl
  | succ g =>
    simp only [parseGo]
    rw [show ParseToken defaultLex ['1', '+'] ⟨1, .Ok, false⟩ =
        (false, ['+'], ⟨2, .Ok, false⟩) from rfl]
    dsimp only
    rw [if_neg (by decide)]
    rw [parseGo_binaryTop_eoi g (GetPriority ['+']) rfl (by decide)]

/-- No fuel lets the top-level parse of `"1+"` finish. -/
theorem parseGo_oneplus_top :
    ∀ f, parseGo defaultLex ['1', '+'] f (.binaryTop 0) ⟨0, .Ok, false⟩ = none := by
  intro f
  cases f with
  | zero => rfl
  | succ f =>
    cases f with
    | zero => rfl
    | succ g =>
      rw [parseGo_binaryTop_succ, parseGo_oneplus_simple g]
      exact parseGo_oneplus_loop (g+1)


/-- If `ParseToken` leaves the state `Ok`, it was `Ok` on entry. -/
theorem ParseToken_state_ok {lex : Lex} {l : List Char} {s : St} {b : Bool}
    {tok : List Char} {sT : St} (hPT : ParseToken lex l s = (b, tok, sT))
    (h : sT.state = .Ok) : s.state = .Ok := by
  have h2 := ParseToken_state lex l s
  rw [hPT] at h2
  dsimp only at h2
  rcases h2 with h2 | h2
  · rw [← h2]; exact h
  · rw [h] at h2; exact absurd h2 (by decide)

/-- Failure is permanent: a parse that ends with state `Ok` started with
state `Ok` (no stage of the parser ever writes `Ok` back). -/
theorem parseGo_state {lex : Lex} {l : List Char} :
    ∀ (f : Nat) (req : PReq) (s : St) (e : Expression) (s1 : St),
    parseGo lex l f req s = some (e, s1) → s1.state = .Ok → s.state = .Ok := by
  intro f
  induction f with
  | zero => intro req s e s1 h; exact absurd h (by simp [parseGo])
  | succ f ih =>
    intro req s e s1 h hok
    cases req with
    | simple =>
      rw [parseGo_simple_succ] at h
      rcases hPT : ParseToken lex l s with ⟨isNum, tok, sT⟩
      rw [hPT] at h
      dsimp only at h
      split at h
      · simp only [Option.some.injEq, Prod.mk.injEq] at h
        obtain ⟨rfl, rfl⟩ := h
        simp_all
      · split at h
        · simp only [Option.some.injEq, Prod.mk.injEq] at h
          obtain ⟨rfl, rfl⟩ := h
          exact ParseToken_state_ok hPT hok
        · split at h
          · split at h
            · exact absurd h (by simp)
            · rename_i res s2 heq
              rcases hPT2 : ParseToken lex l s2 with ⟨b2, tok2, s3⟩
              rw [hPT2] at h
              dsimp only at h
              split at h
              · simp only [Option.some.injEq, Prod.mk.injEq] at h
                obtain ⟨rfl, rfl⟩ := h
                exact absurd hok (by simp)
              · simp only [Option.some.injEq, Prod.mk.injEq] at h
                obtain ⟨rfl, rfl⟩ := h
                have h2 : s2.state = PState.Ok := ParseToken_state_ok hPT2 hok
                exact ParseToken_state_ok hPT (ih (.binaryTop 0) _ _ _ heq h2)
          · split at h
            · exact absurd h (by simp)
            · rename_i arg s2 heq
              simp only [Option.some.injEq, Prod.mk.injEq] at h
              obtain ⟨rfl, rfl⟩ := h
              exact ParseToken_state_ok hPT (ih .simple _ _ _ heq hok)
    | binaryTop mp =>
      rw [parseGo_binaryTop_succ] at h
      split at h
      · exact absurd h (by simp)
      · rename_i lhs s1' heq
        exact ih .simple _ _ _ heq (ih _ _ _ _ h hok)
    | binaryLoop mp lhs =>
      rw [parseGo_binaryLoop_succ] at h
      rcases hPT : ParseToken lex l s with ⟨b, op, sT⟩
      rw [hPT] at h
      dsimp only at h
      split at h
      · simp only [Option.some.injEq, Prod.mk.injEq] at h
        obtain ⟨rfl, rfl⟩ := h
        rw [rewind_state] at hok
        exact ParseToken_state_ok hPT hok
      · split at h
        · exact absurd h (by simp)
        · rename_i rhs s2 heq
          exact ParseToken_state_ok hPT (ih (.binaryTop _) _ _ _ heq (ih _ _ _ _ h hok))



/-- When `ParseToken` reports a numeric token and leaves the state `Ok`, the
token is a non-empty run of digits and points not ending in a point: it is
either a maximal digit-and-point run from the input or one of the two
constant substitutions of the default registry. -/
theorem ParseToken_num_valid {l : List Char} {s : St} {tok : List Char} {s1 : St}
    (hPT : ParseToken defaultLex l s = (true, tok, s1)) (hok : s1.state = .Ok) :
    validNum tok = true := by
  unfold ParseToken at hPT
  dsimp only at hPT
  split at hPT
  · exact absurd hPT (by simp)
  · split at hPT
    · rename_i hnul hdig
      split at hPT
      · simp only [Prod.mk.injEq] at hPT
        obtain ⟨-, rfl, rfl⟩ := hPT
        exact absurd hok (by simp)
      · rename_i hlast
        simp only [Prod.mk.injEq] at hPT
        obtain ⟨-, rfl, rfl⟩ := hPT
        cases hd : l.drop (skipWs l s.pos) with
        | nil => exact absurd (getD_of_drop_nil hd) hnul
        | cons c rest =>
          have hc : l.getD (skipWs l s.pos) nul = c := getD_of_drop_cons hd
          rw [hc] at hdig
          have hcd : isDigitDot c = true := by simp [isDigitDot, hdig]
          rw [hd] at hlast
          rw [List.takeWhile_cons_of_pos hcd] at hlast ⊢
          have h2 : (c :: rest.takeWhile isDigitDot).all isDigitDot = true := by
            rw [List.all_eq_true]
            intro x hx
            rcases List.mem_cons.mp hx with rfl | hx
            · exact hcd
            · exact List.mem_takeWhile_imp hx
          have h3 : ((c :: rest.takeWhile isDigitDot).getLast? == some '.') = false := by
            rw [beq_eq_false_iff_ne]
            exact hlast
          simp [validNum, h2, h3]
    · split at hPT
      · split at hPT
        · rename_i t hfind v hassoc
          simp only [Prod.mk.injEq] at hPT
          obtain ⟨-, rfl, rfl⟩ := hPT
          have hv : v = s2l "3.141593" ∨ v = s2l "2.718282" := by
            simp only [defaultLex, defaultConstants, assoc] at hassoc
            split at hassoc
            · exact Or.inl (Option.some.inj hassoc).symm
            · split at hassoc
              · exact Or.inr (Option.some.inj hassoc).symm
              · exact absurd hassoc (by simp)
          rcases hv with rfl | rfl <;> decide
        · exact absurd hPT (by simp)
      · exact absurd hPT (by simp)



/-- The leaf invariant the parser really maintains: in a parse that ends with
state `Ok`, every 0-argument node carries a non-empty token of digits and
decimal points that does not end in a point.  Nothing bounds the number of
points: the tokenizer consumes a maximal digit-and-point run. -/
theorem parseGo_leaves {l : List Char} :
    ∀ (f : Nat) (req : PReq) (s : St) (e : Expression) (s1 : St),
    parseGo defaultLex l f req s = some (e, s1) → s1.state = .Ok →
    (∀ t ∈ reqLeaves req, validNum t = true) →
    ∀ t ∈ leafTokens e, validNum t = true := by
  intro f
  induction f with
  | zero => intro req s e s1 h; exact absurd h (by simp [parseGo])
  | succ f ih =>
    intro req s e s1 h hok hreq
    cases req with
    | simple =>
      rw [parseGo_simple_succ] at h
      rcases hPT : ParseToken defaultLex l s with ⟨isNum, tok, sT⟩
      rw [hPT] at h
      dsimp only at h
      split at h
      · simp only [Option.some.injEq, Prod.mk.injEq] at h
        obtain ⟨rfl, rfl⟩ := h
        simp_all
      · split at h
        · rename_i hne hnum
          simp only [Option.some.injEq, Prod.mk.injEq] at h
          obtain ⟨rfl, rfl⟩ := h
          intro t ht
          simp only [leafTokens, List.mem_singleton] at ht
          subst ht
          exact ParseToken_num_valid (by rw [hPT, hnum]) hok
        · split at h
          · split at h
            · exact absurd h (by simp)
            · rename_i res s2 heq
              rcases hPT2 : ParseToken defaultLex l s2 with ⟨b2, tok2, s3⟩
              rw [hPT2] at h
              dsimp only at h
              split at h
              · simp only [Option.some.injEq, Prod.mk.injEq] at h
                obtain ⟨rfl, rfl⟩ := h
                exact absurd hok (by simp)
              · simp only [Option.some.injEq, Prod.mk.injEq] at h
                obtain ⟨rfl, rfl⟩ := h
                have h2 : s2.state = PState.Ok := ParseToken_state_ok hPT2 hok
                exact ih (.binaryTop 0) _ _ _ heq h2
                  (by intro t ht; simp [reqLeaves] at ht)
          · split at h
            · exact absurd h (by simp)
            · rename_i arg s2 heq
              simp only [Option.some.injEq, Prod.mk.injEq] at h
              obtain ⟨rfl, rfl⟩ := h
              intro t ht
              simp only [leafTokens] at ht
              exact ih .simple _ _ _ heq hok
                (by intro t ht; simp [reqLeaves] at ht) t ht
    | binaryTop mp =>
      rw [parseGo_binaryTop_succ] at h
      split at h
      · exact absurd h (by simp)
      · rename_i lhs s1' heq
        have hs1' : s1'.state = PState.Ok := parseGo_state f _ _ _ _ h hok
        have hlhs := ih .simple _ _ _ heq hs1'
          (by intro t ht; simp [reqLeaves] at ht)
        exact ih (.binaryLoop mp lhs) _ _ _ h hok (by simpa [reqLeaves] using hlhs)
    | binaryLoop mp lhs =>
      rw [parseGo_binaryLoop_succ] at h
      rcases hPT : ParseToken defaultLex l s with ⟨b, op, sT⟩
      rw [hPT] at h
      dsimp only at h
      split at h
      · simp only [Option.some.injEq, Prod.mk.injEq] at h
        obtain ⟨rfl, rfl⟩ := h
        simpa [reqLeaves] using hreq
      · split at h
        · exact absurd h (by simp)
        · rename_i rhs s2 heq
          have hs2 : s2.state = PState.Ok := parseGo_state f _ _ _ _ h hok
          have hrhs := ih (.binaryTop _) _ _ _ heq hs2
            (by intro t ht; simp [reqLeaves] at ht)
          refine ih (.binaryLoop mp (.binary op lhs rhs)) _ _ _ h hok ?_
          intro t ht
          simp only [reqLeaves, leafTokens, List.mem_append] at ht
          rcases ht with ht | ht
          · exact hreq t (by simpa [reqLeaves] using ht)
          · exact hrhs t ht


/-- C2: binary operators bind by the precedence table (`+`,`-` = 1; `*`,`/` = 2;
`%`,`^` = 3) and parentheses override precedence: `Evaluate("2+3*4", true)`
returns 14 and `Evaluate("(2+3)*4", true)` returns 20, both with state `Ok`.
(`Evaluate` in the spec is `Parser::Get` in the source.) -/
theorem C2_precedence_parentheses :
    Get defaultRegistry 16 "2+3*4" true = some (14, .Ok) ∧
    Get defaultRegistry 16 "(2+3)*4" true = some (20, .Ok) ∧
    GetPriority (s2l "+") = 1 ∧ GetPriority (s2l "-") = 1 ∧
    GetPriority (s2l "*") = 2 ∧ GetPriority (s2l "/") = 2 ∧
    GetPriority (s2l "%") = 3 ∧ GetPriority (s2l "^") = 3 := by
  refine ⟨?_, ?_, by decide, by decide, by decide, by decide, by decide, by decide⟩
  · unfold Get
    rw [show parseGo defaultRegistry.lex (lowerInput "2+3*4") 16 (.binaryTop 0) ⟨0, .Ok, false⟩ =
        some (.binary ['+'] (.leaf ['2']) (.binary ['*'] (.leaf ['3']) (.leaf ['4'])),
          ⟨5, .Ok, false⟩) from rfl]
    show some (Evaluate defaultRegistry true
      (.binary ['+'] (.leaf ['2']) (.binary ['*'] (.leaf ['3']) (.leaf ['4']))) .Ok) = _
    rw [show Evaluate defaultRegistry true
        (.binary ['+'] (.leaf ['2']) (.binary ['*'] (.leaf ['3']) (.leaf ['4']))) .Ok =
        (((2:ℕ):ℝ)/((1:ℕ):ℝ) + ((3:ℕ):ℝ)/((1:ℕ):ℝ) * (((4:ℕ):ℝ)/((1:ℕ):ℝ)), .Ok) from rfl]
    norm_num
  · unfold Get
    rw [show parseGo defaultRegistry.lex (lowerInput "(2+3)*4") 16 (.binaryTop 0) ⟨0, .Ok, false⟩ =
        some (.binary ['*'] (.binary ['+'] (.leaf ['2']) (.leaf ['3'])) (.leaf ['4']),
          ⟨7, .Ok, false⟩) from rfl]
    show some (Evaluate defaultRegistry true
      (.binary ['*'] (.binary ['+'] (.leaf ['2']) (.leaf ['3'])) (.leaf ['4'])) .Ok) = _
    rw [show Evaluate defaultRegistry true
        (.binary ['*'] (.binary ['+'] (.leaf ['2']) (.leaf ['3'])) (.leaf ['4'])) .Ok =
        ((((2:ℕ):ℝ)/((1:ℕ):ℝ) + ((3:ℕ):ℝ)/((1:ℕ):ℝ)) * (((4:ℕ):ℝ)/((1:ℕ):ℝ)), .Ok) from rfl]
    norm_num

/-- C3 counterexample: `Get("2^3^2", true)` returns 64 with state `Ok`, and
64 is not the value 512 the claim asserts. -/
theorem C3_counterexample :
    Get defaultRegistry 16 "2^3^2" true = some (64, .Ok) ∧ (64 : ℝ) ≠ 512 := by
  refine ⟨?_, by norm_num⟩
  unfold Get
  rw [show parseGo defaultRegistry.lex (lowerInput "2^3^2") 16 (.binaryTop 0) ⟨0, .Ok, false⟩ =
      some (.binary ['^'] (.binary ['^'] (.leaf ['2']) (.leaf ['3'])) (.leaf ['2']),
        ⟨5, .Ok, false⟩) from rfl]
  show some (Evaluate defaultRegistry true
    (.binary ['^'] (.binary ['^'] (.leaf ['2']) (.leaf ['3'])) (.leaf ['2'])) .Ok) = _
  rw [show Evaluate defaultRegistry true
      (.binary ['^'] (.binary ['^'] (.leaf ['2']) (.leaf ['3'])) (.leaf ['2'])) .Ok =
      (((((2:ℕ):ℝ)/((1:ℕ):ℝ)) ^ (((3:ℕ):ℝ)/((1:ℕ):ℝ))) ^ (((2:ℕ):ℝ)/((1:ℕ):ℝ)), .Ok) from rfl]
  norm_num

/-- C3 amended: `^` chains left-associatively under the `≤`-priority comparison
in `ParseBinaryExpression` — the tree for `2^3^2` is `(2^3)^2` — so
`Evaluate("2^3^2", true)` returns `(2^3)^2 = 64` with state `Ok`, not 512. -/
theorem C3_power_left_assoc :
    ParseBinaryExpression defaultLex (lowerInput "2^3^2") 16 0 ⟨0, .Ok, false⟩ =
      some (.binary ['^'] (.binary ['^'] (.leaf ['2']) (.leaf ['3'])) (.leaf ['2']),
        ⟨5, .Ok, false⟩) ∧
    Get defaultRegistry 16 "2^3^2" true = some (64, .Ok) := by
  refine ⟨rfl, ?_⟩
  unfold Get
  rw [show parseGo defaultRegistry.lex (lowerInput "2^3^2") 16 (.binaryTop 0) ⟨0, .Ok, false⟩ =
      some (.binary ['^'] (.binary ['^'] (.leaf ['2']) (.leaf ['3'])) (.leaf ['2']),
        ⟨5, .Ok, false⟩) from rfl]
  show some (Evaluate defaultRegistry true
    (.binary ['^'] (.binary ['^'] (.leaf ['2']) (.leaf ['3'])) (.leaf ['2'])) .Ok) = _
  rw [show Evaluate defaultRegistry true
      (.binary ['^'] (.binary ['^'] (.leaf ['2']) (.leaf ['3'])) (.leaf ['2'])) .Ok =
      (((((2:ℕ):ℝ)/((1:ℕ):ℝ)) ^ (((3:ℕ):ℝ)/((1:ℕ):ℝ))) ^ (((2:ℕ):ℝ)/((1:ℕ):ℝ)), .Ok) from rfl]
  norm_num

/-- C4 counterexample: after `Get("1.", true)` the observable state is
`UnknownExpressionType`, not the `InvalidSyntax` the claim asserts the caller
observes. -/
theorem C4_counterexample :
    (Get defaultRegistry 16 "1." true).map Prod.snd = some PState.UnknownExpressionType ∧
    PState.UnknownExpressionType ≠ PState.InvalidSyntax := by
  exact ⟨rfl, by decide⟩

/-- C4 amended: the tokenizer does reject the trailing-point numeral `"1."`
by setting `InvalidSyntax`, but `ParseSimpleExpression` then returns the
default-constructed empty node and `Evaluate` overwrites the state, so the
state the caller observes after `Get("1.", true)` is `UnknownExpressionType`. -/
theorem C4_trailing_point :
    ParseToken defaultLex (lowerInput "1.") ⟨0, .Ok, false⟩ =
      (true, ['1', '.'], ⟨2, .InvalidSyntax, false⟩) ∧
    ParseBinaryExpression defaultLex (lowerInput "1.") 16 0 ⟨0, .Ok, false⟩ =
      some (.leaf [], ⟨2, .InvalidSyntax, false⟩) ∧
    Get defaultRegistry 16 "1." true = some (0, .UnknownExpressionType) := by
  exact ⟨rfl, rfl, rfl⟩

/-- C5 counterexample: `Get("3!", true)` returns 3 with state `Ok` — the
postfix `!` is un-consumed by the binary loop and never applied — and 3 is not
the claimed value 6. -/
theorem C5_counterexample :
    Get defaultRegistry 16 "3!" true = some (3, .Ok) ∧ (3 : ℝ) ≠ 6 := by
  refine ⟨?_, by norm_num⟩
  unfold Get
  rw [show parseGo defaultRegistry.lex (lowerInput "3!") 16 (.binaryTop 0) ⟨0, .Ok, false⟩ =
      some (.leaf ['3'], ⟨1, .Ok, false⟩) from rfl]
  show some (Evaluate defaultRegistry true (.leaf ['3']) .Ok) = _
  rw [show Evaluate defaultRegistry true (.leaf ['3']) .Ok =
      (((3:ℕ):ℝ)/((1:ℕ):ℝ), .Ok) from rfl]
  norm_num

/-- C5 amended: `!` is registered in `FUNCTIONS` with the gamma-based handler
`Γ(a+1)`, but it is a unary prefix: `Get("!3", true)` returns `Γ(4) = 6` with
state `Ok`, while the postfix form `Get("3!", true)` parses only the leaf `3`,
leaves `!` un-consumed, and returns 3 with state `Ok`. -/
theorem C5_factorial_prefix :
    assoc defaultRegistry.functions (s2l "!") = some (fun _ a => Real.Gamma (a + 1)) ∧
    Get defaultRegistry 16 "!3" true = some (6, .Ok) ∧
    Get defaultRegistry 16 "3!" true = some (3, .Ok) := by
  refine ⟨rfl, ?_, ?_⟩
  · unfold Get
    rw [show parseGo defaultRegistry.lex (lowerInput "!3") 16 (.binaryTop 0) ⟨0, .Ok, false⟩ =
        some (.unary ['!'] (.leaf ['3']), ⟨2, .Ok, false⟩) from rfl]
    show some (Evaluate defaultRegistry true (.unary ['!'] (.leaf ['3'])) .Ok) = _
    rw [show Evaluate defaultRegistry true (.unary ['!'] (.leaf ['3'])) .Ok =
        (Real.Gamma (((3:ℕ):ℝ)/((1:ℕ):ℝ) + 1), .Ok) from rfl]
    rw [show (((3:ℕ):ℝ)/((1:ℕ):ℝ) + 1) = ((3:ℕ):ℝ) + 1 from by norm_num]
    rw [Real.Gamma_nat_eq_factorial]
    norm_num [Nat.factorial]
  · unfold Get
    rw [show parseGo defaultRegistry.lex (lowerInput "3!") 16 (.binaryTop 0) ⟨0, .Ok, false⟩ =
        some (.leaf ['3'], ⟨1, .Ok, false⟩) from rfl]
    show some (Evaluate defaultRegistry true (.leaf ['3']) .Ok) = _
    rw [show Evaluate defaultRegistry true (.leaf ['3']) .Ok =
        (((3:ℕ):ℝ)/((1:ℕ):ℝ), .Ok) from rfl]
    norm_num

/-- C6: the `%` operator truncates both operands to integers before taking the
remainder: `Get("5%2", true)` and `Get("5.5%2", true)` both return 1 with
state `Ok`. -/
theorem C6_modulo_truncates :
    Get defaultRegistry 16 "5%2" true = some (1, .Ok) ∧
    Get defaultRegistry 16 "5.5%2" true = some (1, .Ok) := by
  constructor
  · unfold Get
    rw [show parseGo defaultRegistry.lex (lowerInput "5%2") 16 (.binaryTop 0) ⟨0, .Ok, false⟩ =
        some (.binary ['%'] (.leaf ['5']) (.leaf ['2']), ⟨3, .Ok, false⟩) from rfl]
    show some (Evaluate defaultRegistry true (.binary ['%'] (.leaf ['5']) (.leaf ['2'])) .Ok) = _
    rw [show Evaluate defaultRegistry true (.binary ['%'] (.leaf ['5']) (.leaf ['2'])) .Ok =
        (((truncLongInt (((5:ℕ):ℝ)/((1:ℕ):ℝ))).tmod
            (truncLongInt (((2:ℕ):ℝ)/((1:ℕ):ℝ))) : ℝ), .Ok) from rfl]
    rw [show truncLongInt (((5:ℕ):ℝ)/((1:ℕ):ℝ)) = 5 from by
          rw [truncLongInt, if_pos (by norm_num)]; norm_num]
    rw [show truncLongInt (((2:ℕ):ℝ)/((1:ℕ):ℝ)) = 2 from by
          rw [truncLongInt, if_pos (by norm_num)]; norm_num]
    norm_num [Int.tmod]
  · unfold Get
    rw [show parseGo defaultRegistry.lex (lowerInput "5.5%2") 16 (.binaryTop 0) ⟨0, .Ok, false⟩ =
        some (.binary ['%'] (.leaf ['5', '.', '5']) (.leaf ['2']), ⟨5, .Ok, false⟩) from rfl]
    show some (Evaluate defaultRegistry true
      (.binary ['%'] (.leaf ['5', '.', '5']) (.leaf ['2'])) .Ok) = _
    rw [show Evaluate defaultRegistry true
        (.binary ['%'] (.leaf ['5', '.', '5']) (.leaf ['2'])) .Ok =
        (((truncLongInt (((55:ℕ):ℝ)/((10:ℕ):ℝ))).tmod
            (truncLongInt (((2:ℕ):ℝ)/((1:ℕ):ℝ))) : ℝ), .Ok) from rfl]
    rw [show truncLongInt (((55:ℕ):ℝ)/((10:ℕ):ℝ)) = 5 from by
          rw [truncLongInt, if_pos (by norm_num)]
          rw [show (((55:ℕ):ℝ)/((10:ℕ):ℝ)) = (5.5 : ℝ) from by norm_num]
          norm_num [Int.floor_eq_iff]]
    rw [show truncLongInt (((2:ℕ):ℝ)/((1:ℕ):ℝ)) = 2 from by
          rw [truncLongInt, if_pos (by norm_num)]; norm_num]
    norm_num [Int.tmod]

/-- C10: applying the built-in `/` with a zero right operand sets no failure
state: `Get("1/0", true)` returns the quotient with state `Ok`. -/
theorem C10_div_zero_ok :
    Get defaultRegistry 16 "1/0" true = some ((1:ℝ)/0, .Ok) := by
  unfold Get
  rw [show parseGo defaultRegistry.lex (lowerInput "1/0") 16 (.binaryTop 0) ⟨0, .Ok, false⟩ =
      some (.binary ['/'] (.leaf ['1']) (.leaf ['0']), ⟨3, .Ok, false⟩) from rfl]
  show some (Evaluate defaultRegistry true (.binary ['/'] (.leaf ['1']) (.leaf ['0'])) .Ok) = _
  rw [show Evaluate defaultRegistry true (.binary ['/'] (.leaf ['1']) (.leaf ['0'])) .Ok =
      (((1:ℕ):ℝ)/((1:ℕ):ℝ) / (((0:ℕ):ℝ)/((1:ℕ):ℝ)), .Ok) from rfl]
  norm_num

/-- C1 counterexample: after registering `#` with a handler that returns 42,
`Get("1#2", true)` returns 1 with state `Ok` — the supplied handler is never
applied to the operands (the result would otherwise be 42). -/
theorem C1_counterexample :
    Get sharpRegistry 16 "1#2" true = some (1, .Ok) ∧ (1 : ℝ) ≠ 42 := by
  refine ⟨?_, by norm_num⟩
  unfold Get
  rw [show parseGo sharpRegistry.lex (lowerInput "1#2") 16 (.binaryTop 0) ⟨0, .Ok, false⟩ =
      some (.leaf ['1'], ⟨1, .Ok, false⟩) from rfl]
  show some (Evaluate sharpRegistry true (.leaf ['1']) .Ok) = _
  rw [show Evaluate sharpRegistry true (.leaf ['1']) .Ok =
      (((1:ℕ):ℝ)/((1:ℕ):ℝ), .Ok) from rfl]
  norm_num

/-- C1 amended: `AddOperator` takes no precedence argument.  It does store the
handler in `OPERATORS` and splice the symbol into `TOKENS`, but `GetPriority`
is a fixed table giving every registered-later symbol priority 0, so the
binary loop un-consumes the new operator instead of applying it:
`Get("1#2", true)` returns 1 with state `Ok` (the handler returning 42 is
never called).  Evaluation of pre-existing symbols is unchanged
(`Get("2+3*4", true)` is still 14). -/
theorem C1_addOperator_never_binds :
    assoc sharpRegistry.operators (s2l "#") = some (fun _ _ => (42:ℝ)) ∧
    (s2l "#") ∈ sharpRegistry.lex.tokens ∧
    GetPriority (s2l "#") = 0 ∧
    Get sharpRegistry 16 "1#2" true = some (1, .Ok) ∧
    Get sharpRegistry 16 "2+3*4" true = some (14, .Ok) := by
  refine ⟨rfl, by decide, by decide, ?_, ?_⟩
  · unfold Get
    rw [show parseGo sharpRegistry.lex (lowerInput "1#2") 16 (.binaryTop 0) ⟨0, .Ok, false⟩ =
        some (.leaf ['1'], ⟨1, .Ok, false⟩) from rfl]
    show some (Evaluate sharpRegistry true (.leaf ['1']) .Ok) = _
    rw [show Evaluate sharpRegistry true (.leaf ['1']) .Ok =
        (((1:ℕ):ℝ)/((1:ℕ):ℝ), .Ok) from rfl]
    norm_num
  · unfold Get
    rw [show parseGo sharpRegistry.lex (lowerInput "2+3*4") 16 (.binaryTop 0) ⟨0, .Ok, false⟩ =
        some (.binary ['+'] (.leaf ['2']) (.binary ['*'] (.leaf ['3']) (.leaf ['4'])),
          ⟨5, .Ok, false⟩) from rfl]
    show some (Evaluate sharpRegistry true
      (.binary ['+'] (.leaf ['2']) (.binary ['*'] (.leaf ['3']) (.leaf ['4']))) .Ok) = _
    rw [show Evaluate sharpRegistry true
        (.binary ['+'] (.leaf ['2']) (.binary ['*'] (.leaf ['3']) (.leaf ['4']))) .Ok =
        (((2:ℕ):ℝ)/((1:ℕ):ℝ) + ((3:ℕ):ℝ)/((1:ℕ):ℝ) * (((4:ℕ):ℝ)/((1:ℕ):ℝ)), .Ok) from rfl]
    norm_num

/-- C8 counterexample: parsing `"2pi"`, the binary loop peeks the constant
`pi`, whose token text is the 8-character substitution `"3.141593"` although
only 2 characters were consumed; the rewind `m_Input -= op.size()` then moves
the cursor 8 places back from position 3 — before the start of the input
buffer, as the `underflow` flag in the final state records. -/
theorem C8_counterexample :
    ParseBinaryExpression defaultLex (lowerInput "2pi") 16 0 ⟨0, .Ok, false⟩ =
      some (.leaf ['2'], ⟨0, .Ok, true⟩) := by
  rfl

/-- A rewind whose amount is exactly the distance back to `q` lands on `q` and
cannot leave the buffer. -/
theorem rewind_add (s : St) (q n : Nat) (hpos : s.pos = q + n) :
    rewind s n = { s with pos := q } := by
  have h1 : ¬ (s.pos < n) := by omega
  simp [rewind, hpos, h1]

/-- C7 counterexample: the input `"1.2.3"` parses, with state `Ok`, to a single
0-argument node whose token `"1.2.3"` contains two decimal points — not a
valid numeral in the claim's sense — and evaluation still finishes with state
`Ok` instead of a failure state (`stold` reads the prefix `1.2`). -/
theorem C7_counterexample :
    ParseBinaryExpression defaultLex (lowerInput "1.2.3") 16 0 ⟨0, .Ok, false⟩ =
      some (.leaf ['1', '.', '2', '.', '3'], ⟨5, .Ok, false⟩) ∧
    specValidNumeral ['1', '.', '2', '.', '3'] = false ∧
    (Get defaultRegistry 16 "1.2.3" true).map Prod.snd = some PState.Ok := by
  exact ⟨rfl, by decide, rfl⟩

/-- C7 amended: in any parse that finishes with state `Ok`, every 0-argument
node of the tree is a non-empty run of digits and decimal points that does not
end in a point — but it may contain more than one point, and evaluation
accepts any non-empty all-digit-or-point token as a number without setting a
failure state. -/
theorem C7_leaf_invariant :
    ∀ (input : String) (fuel : Nat) (e : Expression) (s1 : St),
    ParseBinaryExpression defaultLex (lowerInput input) fuel 0 ⟨0, .Ok, false⟩ =
      some (e, s1) →
    s1.state = .Ok → (leafTokens e).all validNum = true := by
  intro input fuel e s1 h hok
  rw [List.all_eq_true]
  exact parseGo_leaves fuel (.binaryTop 0) _ _ _ h hok
    (by intro t ht; simp [reqLeaves] at ht)

/-- C7 witness: the invariant instantiated on the parse of `"12"`. -/
theorem C7_witness : (leafTokens (.leaf ['1', '2'])).all validNum = true :=
  C7_leaf_invariant "12" 4 (.leaf ['1', '2']) ⟨2, .Ok, false⟩ rfl rfl

/-- C8 amended: when the peeked token was read as a plain symbol or as a
numeral (every case except a constant substitution), the token text's length
equals the consumed length, so `m_Input -= op.size()` returns the cursor
exactly to the position where the token began (after skipped whitespace) and
never moves it before the start of the buffer.  For constant tokens the token
text is the substituted numeral and the rewind can leave the buffer, as the
counterexample on `"2pi"` shows. -/
theorem C8_rewind_exact (lex : Lex) (l : List Char) (s : St)
    (h : (ParseToken lex l s).1 = false ∨ (l.getD (skipWs l s.pos) nul).isDigit = true) :
    rewind (ParseToken lex l s).2.2 (ParseToken lex l s).2.1.length =
      { (ParseToken lex l s).2.2 with pos := skipWs l s.pos } := by
  rcases hPT : ParseToken lex l s with ⟨b, tok, sT⟩
  rw [hPT] at h
  dsimp only at h ⊢
  unfold ParseToken at hPT
  dsimp only at hPT
  split at hPT
  · simp only [Prod.mk.injEq] at hPT
    obtain ⟨rfl, rfl, rfl⟩ := hPT
    exact rewind_add _ _ _ (by simp)
  · split at hPT
    · split at hPT
      · simp only [Prod.mk.injEq] at hPT
        obtain ⟨rfl, rfl, rfl⟩ := hPT
        exact rewind_add _ _ _ (by simp)
      · simp only [Prod.mk.injEq] at hPT
        obtain ⟨rfl, rfl, rfl⟩ := hPT
        exact rewind_add _ _ _ (by simp)
    · split at hPT
      · split at hPT
        · -- constant substitution: excluded by the hypothesis
          simp only [Prod.mk.injEq] at hPT
          obtain ⟨rfl, rfl, rfl⟩ := hPT
          rcases h with h | h
          · exact absurd h (by simp)
          · simp_all
        · simp only [Prod.mk.injEq] at hPT
          obtain ⟨rfl, rfl, rfl⟩ := hPT
          -- plain symbol: consumed length is the token length... but the
          -- token text is `t`, the matched entry, and pos advanced by t.length
          exact rewind_add _ _ _ (by simp)
      · simp only [Prod.mk.injEq] at hPT
        obtain ⟨rfl, rfl, rfl⟩ := hPT
        exact rewind_add _ _ _ (by simp)

/-- C8 witness: the amended statement on the real rewind site of `"2*3+1"`,
peeking `+` at position 3 — the rewind returns the cursor to position 3. -/
theorem C8_witness :
    rewind (ParseToken defaultLex (lowerInput "2*3+1") ⟨3, .Ok, false⟩).2.2
        (ParseToken defaultLex (lowerInput "2*3+1") ⟨3, .Ok, false⟩).2.1.length =
      { (ParseToken defaultLex (lowerInput "2*3+1") ⟨3, .Ok, false⟩).2.2 with
        pos := skipWs (lowerInput "2*3+1") 3 } :=
  C8_rewind_exact defaultLex (lowerInput "2*3+1") ⟨3, .Ok, false⟩ (Or.inl (by decide))

/-- C9: on the empty input, and on `"1+"` where a simple expression is still
required at end of input, `ParseSimpleExpression` recurses on unchanged state
without consuming anything, so no fuel bound suffices and `Get` never returns
a result or a failure state (the source recursion is unbounded). -/
theorem C9_nontermination :
    (∀ fuel, ParseSimpleExpression defaultLex (lowerInput "") fuel ⟨0, .Ok, false⟩ = none) ∧
    (∀ fuel, Get defaultRegistry fuel "" true = none) ∧
    (∀ fuel, Get defaultRegistry fuel "1+" true = none) := by
  refine ⟨?_, ?_, ?_⟩
  · intro fuel
    exact parseGo_simple_eoi fuel rfl (by decide)
  · intro fuel
    unfold Get
    rw [parseGo_binaryTop_eoi fuel 0 rfl (by decide)]
  · intro fuel
    unfold Get
    rw [show lowerInput "1+" = ['1', '+'] from rfl,
        show defaultRegistry.lex = defaultLex from rfl]
    rw [parseGo_oneplus_top fuel]

end MathParser
